import Mathlib

/-!
# Verification of the Bike-Sharing ingestion-and-aggregation pipeline

A shallow embedding, in Lean 4, of the core of the `Bike_Sharing_Analytics`
repository: the station reconciler and snapshot ingestor
(`app/services/mevo_data_seeder.py`), the aggregation engine and its upserts
(`app/repositories/station_repository.py`), and the job scheduler / manual
trigger path (`app/services/background_scheduler.py`).

Pure computations are translated into Lean functions; database tables become
explicit list-based stores with a fresh-id counter; the effects of a pipeline
run (errors collected, rows written, sync-log write attempts) are made explicit
as returned records.  Decimal values persisted with two decimal places are
modelled as rationals rounded to a multiple of 1/100.
-/

namespace BikeSharing

/-- Day-type classification values (`DayType` in `app/schemas/station.py`).
The source enum values are the strings "weekday" and "weekend". -/
inductive DayType where
  | weekday
  | weekend
deriving DecidableEq, Repr

/-- Run-status values (`SyncStatus` in `app/schemas/station.py`).
The source enum values are "success", "failed" and "partial"; the third
value is named `mixed` here. -/
inductive SyncStatus where
  | success
  | failed
  | mixed
deriving DecidableEq, Repr

/-- The columns of an `availability_snapshots` row read by the aggregation
queries (`select('hour, day_of_week, available_bikes')` in
`station_repository.py`). -/
structure Snapshot where
  hour : Nat
  day_of_week : Nat
  available_bikes : Nat
deriving DecidableEq, Repr

/-- The day-type rule used by both aggregations
(`'weekday' if row['day_of_week'] in [1, 2, 3, 4, 5] else 'weekend'`,
`station_repository.py` lines 537 and 825). -/
def day_type (dow : Nat) : DayType :=
  if dow ∈ [1, 2, 3, 4, 5] then DayType.weekday else DayType.weekend

/-- Grouping key `(hour, day_type)` of one snapshot row. -/
abbrev GroupKey := Nat × DayType

/-- The key the grouping loops assign to a snapshot row:
`key = (hour, day_type)`. -/
def snapKey (s : Snapshot) : GroupKey := (s.hour, day_type s.day_of_week)

/-- Per-key counters accumulated by the reliability grouping loop
(`grouped_data[key]` in `_calculate_station_reliability`). -/
structure GroupAcc where
  total_snapshots : Nat
  bikes_available_count : Nat
  total_bikes : Nat
deriving DecidableEq, Repr

/-- One iteration of the reliability grouping loop
(`station_repository.py` lines 535-550): bump the counters of the row's key. -/
def groupStep (acc : GroupKey → GroupAcc) (s : Snapshot) : GroupKey → GroupAcc :=
  fun k =>
    if k = snapKey s then
      { total_snapshots := (acc k).total_snapshots + 1
        bikes_available_count :=
          (acc k).bikes_available_count + (if 0 < s.available_bikes then 1 else 0)
        total_bikes := (acc k).total_bikes + s.available_bikes }
    else acc k

/-- The `grouped_data` dictionary of `_calculate_station_reliability`, as the
extensional finite map it builds: missing keys carry the zero counters the
loop initialises them with. -/
def groupedData (snaps : List Snapshot) : GroupKey → GroupAcc :=
  snaps.foldl groupStep (fun _ => ⟨0, 0, 0⟩)

/-- Number of snapshots of a group (specification view of the counters). -/
def countKey (snaps : List Snapshot) (k : GroupKey) : Nat :=
  (snaps.filter (fun s => snapKey s = k)).length

/-- Number of snapshots of a group with at least one available bike. -/
def countAvail (snaps : List Snapshot) (k : GroupKey) : Nat :=
  (snaps.filter (fun s => snapKey s = k ∧ 0 < s.available_bikes)).length

/-- Sum of available-bikes over a group. -/
def sumBikes (snaps : List Snapshot) (k : GroupKey) : Nat :=
  ((snaps.filter (fun s => snapKey s = k)).map (fun s => s.available_bikes)).sum

/-- Insertion-order accumulation of dictionary keys: a Python `dict` keeps the
key order of first insertion. -/
def insertKey (acc : List GroupKey) (k : GroupKey) : List GroupKey :=
  if k ∈ acc then acc else acc ++ [k]

/-- The keys of `grouped_data`, in insertion order (order of first occurrence
of each key in the snapshot list). -/
def groupKeys (snaps : List Snapshot) : List GroupKey :=
  (snaps.map snapKey).foldl insertKey []

/-- Rounding to two decimal places, as done by `Decimal(f"{x:.2f}")` on the
computed averages and percentages. -/
def round2 (q : ℚ) : ℚ := (round (q * 100) : ℚ) / 100

theorem groupStep_apply (acc : GroupKey → GroupAcc) (s : Snapshot) (k : GroupKey) :
    groupStep acc s k =
      if k = snapKey s then
        ⟨(acc k).total_snapshots + 1,
         (acc k).bikes_available_count + (if 0 < s.available_bikes then 1 else 0),
         (acc k).total_bikes + s.available_bikes⟩
      else acc k := rfl

theorem countKey_cons (s : Snapshot) (l : List Snapshot) (k : GroupKey) :
    countKey (s :: l) k = (if snapKey s = k then 1 else 0) + countKey l k := by
  simp only [countKey, List.filter_cons]
  split <;> simp_all <;> omega

theorem countAvail_cons (s : Snapshot) (l : List Snapshot) (k : GroupKey) :
    countAvail (s :: l) k =
      (if snapKey s = k ∧ 0 < s.available_bikes then 1 else 0) + countAvail l k := by
  simp only [countAvail, List.filter_cons]
  split <;> simp_all <;> omega

theorem sumBikes_cons (s : Snapshot) (l : List Snapshot) (k : GroupKey) :
    sumBikes (s :: l) k =
      (if snapKey s = k then s.available_bikes else 0) + sumBikes l k := by
  simp only [sumBikes, List.filter_cons]
  split <;> simp_all

theorem foldl_groupStep_apply (l : List Snapshot) (acc : GroupKey → GroupAcc)
    (k : GroupKey) :
    (l.foldl groupStep acc) k =
      ⟨(acc k).total_snapshots + countKey l k,
       (acc k).bikes_available_count + countAvail l k,
       (acc k).total_bikes + sumBikes l k⟩ := by
  induction l generalizing acc with
  | nil =>
      simp [countKey, countAvail, sumBikes]
  | cons s l ih =>
      rw [List.foldl_cons, ih, countKey_cons, countAvail_cons, sumBikes_cons,
        groupStep_apply]
      by_cases hk : k = snapKey s
      · have hk' : snapKey s = k := hk.symm
        simp only [if_pos hk, if_pos hk']
        by_cases hb : 0 < s.available_bikes
        · simp only [if_pos hb, if_pos (And.intro hk' hb), GroupAcc.mk.injEq]
          refine ⟨by omega, by omega, by omega⟩
        · simp only [if_neg hb, GroupAcc.mk.injEq]
          have : ¬ (snapKey s = k ∧ 0 < s.available_bikes) := fun h => hb h.2
          simp only [if_neg this]
          refine ⟨by omega, by omega, by omega⟩
      · have hk' : ¬ snapKey s = k := fun h => hk h.symm
        simp only [if_neg hk, if_neg hk']
        have : ¬ (snapKey s = k ∧ 0 < s.available_bikes) := fun h => hk' h.1
        simp only [if_neg this, GroupAcc.mk.injEq]
        refine ⟨by omega, by omega, by omega⟩

/-- The `grouped_data` counters agree with the direct per-group counts. -/
theorem groupedData_spec (snaps : List Snapshot) (k : GroupKey) :
    groupedData snaps k =
      ⟨countKey snaps k, countAvail snaps k, sumBikes snaps k⟩ := by
  simpa using foldl_groupStep_apply snaps (fun _ => ⟨0, 0, 0⟩) k

theorem mem_foldl_insertKey (l : List GroupKey) (init : List GroupKey)
    (k : GroupKey) :
    k ∈ l.foldl insertKey init ↔ k ∈ init ∨ k ∈ l := by
  induction l generalizing init with
  | nil => simp
  | cons a l ih =>
      rw [List.foldl_cons, ih]
      unfold insertKey
      by_cases ha : a ∈ init
      · simp only [if_pos ha]
        constructor
        · rintro (h | h)
          · exact Or.inl h
          · exact Or.inr (List.mem_cons_of_mem a h)
        · rintro (h | h)
          · exact Or.inl h
          · rcases List.mem_cons.mp h with h | h
            · exact Or.inl (h ▸ ha)
            · exact Or.inr h
      · simp only [if_neg ha, List.mem_append, List.mem_singleton]
        constructor
        · rintro ((h | h) | h)
          · exact Or.inl h
          · exact Or.inr (List.mem_cons.mpr (Or.inl h))
          · exact Or.inr (List.mem_cons_of_mem a h)
        · rintro (h | h)
          · exact Or.inl (Or.inl h)
          · rcases List.mem_cons.mp h with h | h
            · exact Or.inl (Or.inr h)
            · exact Or.inr h

theorem nodup_foldl_insertKey (l : List GroupKey) (init : List GroupKey)
    (h : init.Nodup) : (l.foldl insertKey init).Nodup := by
  induction l generalizing init with
  | nil => simpa
  | cons a l ih =>
      rw [List.foldl_cons]
      apply ih
      unfold insertKey
      by_cases ha : a ∈ init
      · simpa [if_pos ha]
      · rw [if_neg ha]
        simpa [List.nodup_append] using ⟨h, ha⟩

theorem mem_groupKeys (snaps : List Snapshot) (k : GroupKey) :
    k ∈ groupKeys snaps ↔ ∃ s ∈ snaps, snapKey s = k := by
  rw [groupKeys, mem_foldl_insertKey]
  simp [eq_comm]

theorem groupKeys_nodup (snaps : List Snapshot) : (groupKeys snaps).Nodup :=
  nodup_foldl_insertKey _ _ List.nodup_nil

theorem mem_groupKeys_iff_countKey_pos (snaps : List Snapshot) (k : GroupKey) :
    k ∈ groupKeys snaps ↔ 0 < countKey snaps k := by
  rw [mem_groupKeys, countKey, List.length_pos_iff_exists_mem]
  constructor
  · rintro ⟨s, hs, hk⟩
    exact ⟨s, List.mem_filter.mpr ⟨hs, by simp [hk]⟩⟩
  · rintro ⟨s, hs⟩
    rcases List.mem_filter.mp hs with ⟨hs, hk⟩
    exact ⟨s, hs, by simpa using hk⟩

/-! ## Reliability score calculation (`_calculate_station_reliability`) -/

/-- A `ReliabilityScoreCreate` record (`app/schemas/station.py`): the payload
upserted into `reliability_scores`.  The two decimal fields are rationals
that are multiples of 1/100; the period dates are modelled as integers. -/
structure ReliabilityScoreCreate where
  station_id : Nat
  hour : Nat
  day_type : DayType
  reliability_percentage : ℚ
  avg_available_bikes : ℚ
  sample_size : Nat
  data_period_start : Int
  data_period_end : Int
deriving DecidableEq, Repr

/-- The method `_calculate_station_reliability` (`station_repository.py` lines 498-581):
group the station's in-window snapshots by `(hour, day_type)`, skip groups
with fewer than 5 snapshots, and for the rest build a score with
`reliability_percentage = (bikes_available_count / total_snapshots) * 100` and
`avg_bikes = total_bikes / total_snapshots`, both persisted with two decimal
places.  The returned list is, in order, the sequence of rows the loop
upserts and appends to `calculated_scores`. -/
def calcStationReliability (sid : Nat) (ps pe : Int) (snaps : List Snapshot) :
    List ReliabilityScoreCreate :=
  (groupKeys snaps).filterMap (fun k =>
    let data := groupedData snaps k
    if data.total_snapshots < 5 then none
    else some
      { station_id := sid
        hour := k.1
        day_type := k.2
        reliability_percentage :=
          round2 (((data.bikes_available_count : ℚ) / (data.total_snapshots : ℚ)) * 100)
        avg_available_bikes :=
          round2 ((data.total_bikes : ℚ) / (data.total_snapshots : ℚ))
        sample_size := data.total_snapshots
        data_period_start := ps
        data_period_end := pe })

/-- The grouping key carried by a persisted reliability row. -/
def scoreGroupKey (r : ReliabilityScoreCreate) : GroupKey := (r.hour, r.day_type)

/-- The rows of a result list that belong to one `(hour, day_type)` key. -/
def rowsForKey (rows : List ReliabilityScoreCreate) (k : GroupKey) :
    List ReliabilityScoreCreate :=
  rows.filter (fun r => scoreGroupKey r = k)

theorem filter_filterMap_key {β : Type} (l : List GroupKey)
    (f : GroupKey → Option β) (key : β → GroupKey)
    (hf : ∀ k r, f k = some r → key r = k) (k : GroupKey) :
    (l.filterMap f).filter (fun r => key r = k) =
      (l.filter (fun x => x = k)).filterMap f := by
  induction l with
  | nil => simp
  | cons a l ih =>
      by_cases ha : a = k
      · subst ha
        cases hfa : f a with
        | none => simp [List.filterMap_cons, List.filter_cons, hfa, ih]
        | some r =>
            have hk : key r = a := hf a r hfa
            simp [List.filterMap_cons, List.filter_cons, hfa, hk, ih]
      · cases hfa : f a with
        | none => simp [List.filterMap_cons, List.filter_cons, hfa, ha, ih]
        | some r =>
            have hk : key r = a := hf a r hfa
            simp [List.filterMap_cons, List.filter_cons, hfa, hk, ha, ih]

theorem nodup_filter_eq_key (l : List GroupKey) (k : GroupKey)
    (h : l.Nodup) :
    l.filter (fun x => x = k) = if k ∈ l then [k] else [] := by
  induction l with
  | nil => simp
  | cons a l ih =>
      rcases List.nodup_cons.mp h with ⟨ha, hl⟩
      by_cases hak : a = k
      · subst hak
        simp [List.filter_cons, ih hl, ha]
      · have hmemiff : (k ∈ a :: l) = (k ∈ l) := by
          simp only [List.mem_cons, eq_iff_iff]
          constructor
          · rintro (h | h)
            · exact absurd h.symm hak
            · exact h
          · exact Or.inr
        simp [List.filter_cons, hak, ih hl, hmemiff]

/-- Claim C1: For every station, window and grouping key: when the key's group
in the given snapshot set has at least 5 snapshots, `_calculate_station_reliability`
produces exactly one row for the key, whose reliability percentage is
`100 * (snapshots with available_bikes > 0) / (total snapshots)` rounded to
two decimal places and whose average is the group mean rounded to two decimal
places; when the group has fewer than 5 snapshots, no row is produced for the
key. -/
theorem reliability_rows_match_group_counts (sid : Nat) (ps pe : Int)
    (snaps : List Snapshot) (k : GroupKey) :
    rowsForKey (calcStationReliability sid ps pe snaps) k =
      if 5 ≤ countKey snaps k then
        [{ station_id := sid
           hour := k.1
           day_type := k.2
           reliability_percentage :=
             round2 (100 * (countAvail snaps k : ℚ) / (countKey snaps k : ℚ))
           avg_available_bikes :=
             round2 ((sumBikes snaps k : ℚ) / (countKey snaps k : ℚ))
           sample_size := countKey snaps k
           data_period_start := ps
           data_period_end := pe }]
      else [] := by
  have hcongr : calcStationReliability sid ps pe snaps =
      (groupKeys snaps).filterMap (fun k =>
        if countKey snaps k < 5 then none
        else some
          { station_id := sid
            hour := k.1
            day_type := k.2
            reliability_percentage :=
              round2 (((countAvail snaps k : ℚ) / (countKey snaps k : ℚ)) * 100)
            avg_available_bikes :=
              round2 ((sumBikes snaps k : ℚ) / (countKey snaps k : ℚ))
            sample_size := countKey snaps k
            data_period_start := ps
            data_period_end := pe }) := by
    unfold calcStationReliability
    apply List.filterMap_congr
    intro x _
    rw [groupedData_spec]
  rw [rowsForKey, hcongr,
    filter_filterMap_key _ _ scoreGroupKey (by
      intro k' r h
      by_cases hc : countKey snaps k' < 5
      · simp [hc] at h
      · simp only [hc, if_false] at h
        cases h
        rfl) k,
    nodup_filter_eq_key _ _ (groupKeys_nodup snaps)]
  by_cases hmem : k ∈ groupKeys snaps
  · rw [if_pos hmem]
    by_cases h5 : countKey snaps k < 5
    · have h5' : ¬ 5 ≤ countKey snaps k := by omega
      simp [List.filterMap_cons, h5, h5']
    · have h5' : 5 ≤ countKey snaps k := by omega
      have harith : ((countAvail snaps k : ℚ) / (countKey snaps k : ℚ)) * 100 =
          100 * (countAvail snaps k : ℚ) / (countKey snaps k : ℚ) := by
        ring
      simp [List.filterMap_cons, h5, h5', harith]
  · rw [if_neg hmem, List.filterMap_nil]
    have hc0 : countKey snaps k = 0 := by
      by_contra h
      exact hmem ((mem_groupKeys_iff_countKey_pos snaps k).mpr (Nat.pos_of_ne_zero h))
    rw [if_neg (by omega)]

/-! ## Hourly availability averages (`calculate_hourly_averages` and its
client-side fallback) -/

/-- Per-key counters of the fallback grouping loop
(`_calculate_hourly_averages_fallback`, lines 822-835). -/
structure AvgAcc where
  total_snapshots : Nat
  total_bikes : Nat
deriving DecidableEq, Repr

/-- One iteration of the fallback grouping loop. -/
def avgGroupStep (acc : GroupKey → AvgAcc) (s : Snapshot) : GroupKey → AvgAcc :=
  fun k =>
    if k = snapKey s then
      { total_snapshots := (acc k).total_snapshots + 1
        total_bikes := (acc k).total_bikes + s.available_bikes }
    else acc k

/-- The `grouped_data` dictionary of `_calculate_hourly_averages_fallback`. -/
def avgGroupedData (snaps : List Snapshot) : GroupKey → AvgAcc :=
  snaps.foldl avgGroupStep (fun _ => ⟨0, 0⟩)

theorem avgGroupStep_apply (acc : GroupKey → AvgAcc) (s : Snapshot) (k : GroupKey) :
    avgGroupStep acc s k =
      if k = snapKey s then
        ⟨(acc k).total_snapshots + 1, (acc k).total_bikes + s.available_bikes⟩
      else acc k := rfl

theorem foldl_avgGroupStep_apply (l : List Snapshot) (acc : GroupKey → AvgAcc)
    (k : GroupKey) :
    (l.foldl avgGroupStep acc) k =
      ⟨(acc k).total_snapshots + countKey l k,
       (acc k).total_bikes + sumBikes l k⟩ := by
  induction l generalizing acc with
  | nil => simp [countKey, sumBikes]
  | cons s l ih =>
      rw [List.foldl_cons, ih, countKey_cons, sumBikes_cons, avgGroupStep_apply]
      by_cases hk : k = snapKey s
      · have hk' : snapKey s = k := hk.symm
        simp only [if_pos hk, if_pos hk', AvgAcc.mk.injEq]
        refine ⟨by omega, by omega⟩
      · have hk' : ¬ snapKey s = k := fun h => hk h.symm
        simp only [if_neg hk, if_neg hk', AvgAcc.mk.injEq]
        refine ⟨by omega, by omega⟩

/-- The fallback grouping counters agree with the direct per-group counts. -/
theorem avgGroupedData_spec (snaps : List Snapshot) (k : GroupKey) :
    avgGroupedData snaps k = ⟨countKey snaps k, sumBikes snaps k⟩ := by
  simpa using foldl_avgGroupStep_apply snaps (fun _ => ⟨0, 0⟩) k

/-- An `HourlyAvailabilityAverageCreate` record (`app/schemas/station.py`):
the payload upserted into `hourly_availability_averages`. -/
structure HourlyAvailabilityAverageCreate where
  station_id : Nat
  hour : Nat
  day_type : DayType
  avg_bikes_available : ℚ
  total_snapshots : Nat
deriving DecidableEq, Repr

/-- One row returned by the store-side aggregation procedure. -/
structure RpcAvgRow where
  hour : Nat
  day_type : DayType
  avg_bikes : ℚ
  total_snapshots : Nat
deriving DecidableEq, Repr

/-- Modelled from the spec: the store-side aggregation procedure
`calculate_hourly_averages` invoked through `self.db.client.rpc` is a named
server-side procedure whose SQL body is not part of the repository sources.
Per the spec it performs "identical grouping over the station's entire
history": one row per `(hour, day-type)` group of the station's snapshots,
carrying the group's exact mean of available bikes and its snapshot count. -/
def rpcCalculateHourlyAverages (snaps : List Snapshot) : List RpcAvgRow :=
  (groupKeys snaps).map (fun k =>
    { hour := k.1
      day_type := k.2
      avg_bikes := (sumBikes snaps k : ℚ) / (countKey snaps k : ℚ)
      total_snapshots := countKey snaps k })

/-- The method `_calculate_hourly_averages_fallback` (`station_repository.py` lines
799-866): fetch all raw snapshots of the station, group client-side by
`(hour, day_type)`, skip groups with fewer than 5 snapshots, and upsert an
average (two decimal places) for the rest.  The returned list is the sequence
of rows the loop upserts. -/
def calcHourlyAveragesFallback (sid : Nat) (snaps : List Snapshot) :
    List HourlyAvailabilityAverageCreate :=
  if snaps.isEmpty then []
  else
    (groupKeys snaps).filterMap (fun k =>
      let data := avgGroupedData snaps k
      if data.total_snapshots < 5 then none
      else some
        { station_id := sid
          hour := k.1
          day_type := k.2
          avg_bikes_available :=
            round2 ((data.total_bikes : ℚ) / (data.total_snapshots : ℚ))
          total_snapshots := data.total_snapshots })

/-- The method `calculate_hourly_averages` (`station_repository.py` lines 738-797):
prefer the store-side aggregation procedure; skip returned groups with fewer
than 5 snapshots and upsert the rest with two decimal places.  On any failure
of the procedure call (`rpcOk = false`) fall back to
`_calculate_hourly_averages_fallback`.  The returned list is the sequence of
rows upserted. -/
def calculate_hourly_averages (rpcOk : Bool) (sid : Nat) (snaps : List Snapshot) :
    List HourlyAvailabilityAverageCreate :=
  if rpcOk then
    let rows := rpcCalculateHourlyAverages snaps
    if rows.isEmpty then []
    else
      rows.filterMap (fun row =>
        if row.total_snapshots < 5 then none
        else some
          { station_id := sid
            hour := row.hour
            day_type := row.day_type
            avg_bikes_available := round2 row.avg_bikes
            total_snapshots := row.total_snapshots })
  else calcHourlyAveragesFallback sid snaps

theorem groupKeys_eq_nil_iff (snaps : List Snapshot) :
    groupKeys snaps = [] ↔ snaps = [] := by
  constructor
  · intro h
    cases snaps with
    | nil => rfl
    | cons s l =>
        exfalso
        have : snapKey s ∈ groupKeys (s :: l) :=
          (mem_groupKeys _ _).mpr ⟨s, List.mem_cons_self s l, rfl⟩
        rw [h] at this
        exact List.not_mem_nil _ this
  · rintro rfl
    rfl

/-- Claim C5: On a failure of the store-side aggregation call the computation is
exactly the client-side fallback, and the fallback produces the same rows
(same `(hour, day-type)` keys, averages and counts, under the same
minimum-sample-size-5 suppression) as the fast path does on the same data. -/
theorem hourly_fallback_equals_fast_path (sid : Nat) (snaps : List Snapshot) :
    calculate_hourly_averages false sid snaps = calcHourlyAveragesFallback sid snaps ∧
    calcHourlyAveragesFallback sid snaps = calculate_hourly_averages true sid snaps := by
  refine ⟨rfl, ?_⟩
  by_cases hs : snaps.isEmpty
  · have hnil : snaps = [] := List.isEmpty_iff.mp hs
    subst hnil
    rfl
  · have hsnil : ¬ snaps = [] := fun h => hs (by simp [h])
    have hkeys : ¬ groupKeys snaps = [] := fun h =>
      hsnil ((groupKeys_eq_nil_iff snaps).mp h)
    have hrows : ¬ (rpcCalculateHourlyAverages snaps).isEmpty := by
      intro h
      exact hkeys (by
        have := List.isEmpty_iff.mp h
        unfold rpcCalculateHourlyAverages at this
        exact List.map_eq_nil_iff.mp this)
    rw [calculate_hourly_averages]
    simp only [if_pos rfl, if_neg hrows]
    rw [calcHourlyAveragesFallback, if_neg (by simpa using hs)]
    rw [rpcCalculateHourlyAverages, List.filterMap_map]
    apply List.filterMap_congr
    intro k _
    simp only [Function.comp_apply, avgGroupedData_spec]


/-! ## Day-type classification (C8) -/

/-- Claim C8: The day-type classification shared by both aggregations is total
and mutually exclusive on day-of-week values 1..7: days 1-5 map to weekday,
days 6-7 map to weekend, and no day maps to both. -/
theorem day_type_total_and_exclusive (d : Fin 7) :
    (day_type (d.val + 1) = DayType.weekday ↔ d.val + 1 ≤ 5) ∧
    (day_type (d.val + 1) = DayType.weekend ↔ 6 ≤ d.val + 1) ∧
    ¬ (day_type (d.val + 1) = DayType.weekday ∧
       day_type (d.val + 1) = DayType.weekend) := by
  fin_cases d <;> simp [day_type]

/-! ## Upsert semantics of the aggregate tables

Both `_upsert_reliability_score` and `_upsert_hourly_average` follow the same
check-then-write algorithm: select an existing row by the natural key
`(station_id, hour, day_type)`; if one is found, update it by its row `id`
with the full payload; otherwise insert a new row.  `upsertRow` captures that
algorithm once, parameterised by the row type's key, id, overwrite and
insert operations; the two source functions are its two instantiations. -/

/-- A persisted table: its rows plus the next fresh row id the store would
assign on insert. -/
structure Table (R : Type) where
  rows : List R
  nextId : Nat
deriving DecidableEq, Repr

/-- Well-formedness of a table: row ids are unique and below the fresh-id
counter. -/
def Table.WF {R : Type} (rid : R → Nat) (t : Table R) : Prop :=
  (t.rows.map rid).Nodup ∧ ∀ r ∈ t.rows, rid r < t.nextId

section GenericUpsert

variable {R C K : Type} [DecidableEq K]
variable (rkey : R → K) (ckey : C → K) (rid : R → Nat)
variable (setR : R → C → R) (newR : Nat → C → R)

/-- The shared check-then-write upsert: find an existing row by natural key;
update it in place by its row id when found; insert with a fresh id when
absent. -/
def upsertRow (t : Table R) (c : C) : Table R :=
  match t.rows.find? (fun r => rkey r = ckey c) with
  | some r0 =>
      { t with rows := t.rows.map (fun r => if rid r = rid r0 then setR r c else r) }
  | none => { rows := t.rows ++ [newR t.nextId c], nextId := t.nextId + 1 }

/-- Upserting a list of payloads in order. -/
def upsertAll (cs : List C) (t : Table R) : Table R :=
  cs.foldl (upsertRow rkey ckey rid setR newR) t

/-- The payload `c` is already persisted: the first row found under its
natural key holds exactly `c`'s values. -/
def written (t : Table R) (c : C) : Prop :=
  ∃ r, t.rows.find? (fun r => rkey r = ckey c) = some r ∧ setR r c = r

theorem find?_map_replace (l : List R) (p : R → Bool) (r0 : R) (c : C)
    (hnd : (l.map rid).Nodup) (hfind : l.find? p = some r0)
    (hp : p (setR r0 c) = true) :
    (l.map (fun r => if rid r = rid r0 then setR r c else r)).find? p =
      some (setR r0 c) := by
  induction l with
  | nil => simp at hfind
  | cons a l ih =>
      rw [List.map_cons] at hnd
      rcases List.nodup_cons.mp hnd with ⟨ha, hl⟩
      by_cases hpa : p a = true
      · rw [List.find?_cons_of_pos _ hpa] at hfind
        cases hfind
        simp only [List.map_cons, if_pos rfl]
        exact List.find?_cons_of_pos _ hp
      · rw [List.find?_cons_of_neg _ (by simpa using hpa)] at hfind
        have hr0 : r0 ∈ l := List.mem_of_find?_eq_some hfind
        have hne : ¬ rid a = rid r0 := fun h =>
          ha (h ▸ List.mem_map_of_mem rid hr0)
        simp only [List.map_cons, if_neg hne]
        rw [List.find?_cons_of_neg _ (by simpa using hpa)]
        exact ih hl hfind

theorem find?_map_keep (l : List R) (p : R → Bool) (g : R → R)
    (h : ∀ r ∈ l, p (g r) = p r ∧ (p r = true → g r = r)) :
    (l.map g).find? p = l.find? p := by
  induction l with
  | nil => simp
  | cons a l ih =>
      obtain ⟨hpa, hfix⟩ := h a (List.mem_cons_self a l)
      by_cases hp : p a = true
      · rw [List.map_cons, List.find?_cons_of_pos _ (by rw [hpa]; exact hp),
          List.find?_cons_of_pos _ hp, hfix hp]
      · rw [List.map_cons,
          List.find?_cons_of_neg _ (by rw [hpa]; simpa using hp),
          List.find?_cons_of_neg _ (by simpa using hp)]
        exact ih (fun r hr => h r (List.mem_cons_of_mem a hr))

theorem rows_inj_of_WF (t : Table R) (hwf : Table.WF rid t) :
    ∀ x ∈ t.rows, ∀ y ∈ t.rows, rid x = rid y → x = y :=
  List.inj_on_of_nodup_map hwf.1

theorem written_upsertRow_self
    (hkey_set : ∀ r c, rkey (setR r c) = ckey c)
    (hset_set : ∀ r c, setR (setR r c) c = setR r c)
    (hnew_fix : ∀ i c, setR (newR i c) c = newR i c)
    (t : Table R) (c : C) (hwf : Table.WF rid t) :
    written rkey ckey setR (upsertRow rkey ckey rid setR newR t c) c := by
  cases hfind : t.rows.find? (fun r => rkey r = ckey c) with
  | some r0 =>
      refine ⟨setR r0 c, ?_, hset_set r0 c⟩
      simp only [upsertRow, hfind]
      exact find?_map_replace rid setR t.rows _ r0 c hwf.1 hfind
        (by simp [hkey_set])
  | none =>
      refine ⟨newR t.nextId c, ?_, hnew_fix t.nextId c⟩
      simp only [upsertRow, hfind]
      rw [List.find?_append, hfind]
      have : rkey (newR t.nextId c) = ckey c := by
        rw [← hnew_fix t.nextId c, hkey_set]
      simp [this]

theorem written_upsertRow_of_ne
    (hkey_set : ∀ r c, rkey (setR r c) = ckey c)
    (t : Table R) (c c' : C) (hwf : Table.WF rid t)
    (hne : ckey c' ≠ ckey c) (h : written rkey ckey setR t c) :
    written rkey ckey setR (upsertRow rkey ckey rid setR newR t c') c := by
  obtain ⟨r, hfind, hfix⟩ := h
  cases hfind' : t.rows.find? (fun x => rkey x = ckey c') with
  | some r0 =>
      refine ⟨r, ?_, hfix⟩
      simp only [upsertRow, hfind']
      rw [find?_map_keep]
      · exact hfind
      · intro x hx
        by_cases hxid : rid x = rid r0
        · have hx_eq : x = r0 :=
            rows_inj_of_WF rid t hwf x hx r0 (List.mem_of_find?_eq_some hfind') hxid
          subst hx_eq
          have hpr0 : rkey x = ckey c' := by
            simpa using List.find?_some hfind'
          constructor
          · simp [if_pos hxid, hkey_set, hpr0, hne]
          · intro hp
            exact absurd (by simpa [hpr0] using hp) hne
        · simp [if_neg hxid]
  | none =>
      refine ⟨r, ?_, hfix⟩
      simp only [upsertRow, hfind']
      rw [List.find?_append, hfind]
      rfl

theorem upsertRow_WF
    (hid_set : ∀ r c, rid (setR r c) = rid r)
    (hnew_id : ∀ i c, rid (newR i c) = i)
    (t : Table R) (c : C) (hwf : Table.WF rid t) :
    Table.WF rid (upsertRow rkey ckey rid setR newR t c) := by
  cases hfind : t.rows.find? (fun r => rkey r = ckey c) with
  | some r0 =>
      simp only [upsertRow, hfind]
      constructor
      · have hmap : (t.rows.map
            (fun r => if rid r = rid r0 then setR r c else r)).map rid =
            t.rows.map rid := by
          rw [List.map_map]
          apply List.map_congr_left
          intro x _
          by_cases hxid : rid x = rid r0
          · simp [hxid, hid_set]
          · simp [hxid]
        rw [hmap]
        exact hwf.1
      · intro r hr
        rcases List.mem_map.mp hr with ⟨x, hx, rfl⟩
        by_cases hxid : rid x = rid r0
        · simpa [hxid, hid_set] using hwf.2 x hx
        · simpa [hxid] using hwf.2 x hx
  | none =>
      simp only [upsertRow, hfind]
      constructor
      · rw [List.map_append]
        rw [List.nodup_append]
        refine ⟨hwf.1, by simp, ?_⟩
        intro a ha
        simp only [List.map_cons, List.map_nil, List.mem_singleton, hnew_id]
        rcases List.mem_map.mp ha with ⟨x, hx, rfl⟩
        have := hwf.2 x hx
        omega
      · intro r hr
        rcases List.mem_append.mp hr with hr | hr
        · have := hwf.2 r hr
          show rid r < t.nextId + 1
          omega
        · rcases List.mem_singleton.mp hr with rfl
          show rid (newR t.nextId c) < t.nextId + 1
          rw [hnew_id]
          omega

theorem upsertAll_WF
    (hid_set : ∀ r c, rid (setR r c) = rid r)
    (hnew_id : ∀ i c, rid (newR i c) = i)
    (cs : List C) (t : Table R) (hwf : Table.WF rid t) :
    Table.WF rid (upsertAll rkey ckey rid setR newR cs t) := by
  induction cs generalizing t with
  | nil => exact hwf
  | cons c cs ih =>
      exact ih _ (upsertRow_WF rkey ckey rid setR newR hid_set hnew_id t c hwf)

theorem written_upsertAll_of_ne
    (hkey_set : ∀ r c, rkey (setR r c) = ckey c)
    (hid_set : ∀ r c, rid (setR r c) = rid r)
    (hnew_id : ∀ i c, rid (newR i c) = i)
    (cs : List C) (t : Table R) (c : C)
    (hwf : Table.WF rid t) (h : written rkey ckey setR t c)
    (hk : ∀ c' ∈ cs, ckey c' ≠ ckey c) :
    written rkey ckey setR (upsertAll rkey ckey rid setR newR cs t) c := by
  induction cs generalizing t with
  | nil => exact h
  | cons c0 cs ih =>
      apply ih _ (upsertRow_WF rkey ckey rid setR newR hid_set hnew_id t c0 hwf)
      · exact written_upsertRow_of_ne rkey ckey rid setR newR hkey_set t c c0 hwf
          (hk c0 (List.mem_cons_self c0 cs)) h
      · exact fun c' hc' => hk c' (List.mem_cons_of_mem c0 hc')

theorem upsertRow_of_written (t : Table R) (c : C) (hwf : Table.WF rid t)
    (h : written rkey ckey setR t c) :
    upsertRow rkey ckey rid setR newR t c = t := by
  obtain ⟨r, hfind, hfix⟩ := h
  simp only [upsertRow, hfind]
  have hmap : t.rows.map (fun x => if rid x = rid r then setR x c else x) =
      t.rows := by
    have : ∀ x ∈ t.rows,
        (if rid x = rid r then setR x c else x) = x := by
      intro x hx
      by_cases hxid : rid x = rid r
      · have hx_eq : x = r :=
          rows_inj_of_WF rid t hwf x hx r (List.mem_of_find?_eq_some hfind) hxid
        subst hx_eq
        simp [if_pos hxid, hfix]
      · simp [hxid]
    calc t.rows.map (fun x => if rid x = rid r then setR x c else x)
        = t.rows.map id := List.map_congr_left this
      _ = t.rows := List.map_id t.rows
  rw [hmap]

theorem upsertAll_of_written (cs : List C) (t : Table R) (hwf : Table.WF rid t)
    (h : ∀ c ∈ cs, written rkey ckey setR t c) :
    upsertAll rkey ckey rid setR newR cs t = t := by
  induction cs with
  | nil => rfl
  | cons c0 cs ih =>
      have hstep : upsertRow rkey ckey rid setR newR t c0 = t :=
        upsertRow_of_written rkey ckey rid setR newR t c0 hwf
          (h c0 (List.mem_cons_self c0 cs))
      show upsertAll rkey ckey rid setR newR cs
        (upsertRow rkey ckey rid setR newR t c0) = t
      rw [hstep]
      exact ih (fun c hc => h c (List.mem_cons_of_mem c0 hc))

theorem written_upsertAll_self
    (hkey_set : ∀ r c, rkey (setR r c) = ckey c)
    (hid_set : ∀ r c, rid (setR r c) = rid r)
    (hset_set : ∀ r c, setR (setR r c) c = setR r c)
    (hnew_fix : ∀ i c, setR (newR i c) c = newR i c)
    (hnew_id : ∀ i c, rid (newR i c) = i)
    (cs : List C) (t : Table R)
    (hwf : Table.WF rid t) (hnd : (cs.map ckey).Nodup) :
    ∀ c ∈ cs, written rkey ckey setR (upsertAll rkey ckey rid setR newR cs t) c := by
  induction cs generalizing t with
  | nil => intro c hc; simp at hc
  | cons c0 cs ih =>
      have hwf1 := upsertRow_WF rkey ckey rid setR newR hid_set hnew_id t c0 hwf
      intro c hc
      rcases List.mem_cons.mp hc with rfl | hc
      · show written rkey ckey setR
          (upsertAll rkey ckey rid setR newR cs
            (upsertRow rkey ckey rid setR newR t c)) c
        apply written_upsertAll_of_ne rkey ckey rid setR newR hkey_set hid_set
          hnew_id cs _ c hwf1
        · exact written_upsertRow_self rkey ckey rid setR newR hkey_set hset_set
            hnew_fix t c hwf
        · intro c' hc'
          have : ckey c ∉ cs.map ckey := (List.nodup_cons.mp (by simpa using hnd)).1
          exact fun h => this (h ▸ List.mem_map_of_mem ckey hc')
      · exact ih _ hwf1 (List.nodup_cons.mp (by simpa using hnd)).2 c hc

/-- Idempotence of the check-then-write upsert pass: applying the same list
of payloads (with pairwise distinct natural keys) a second time to a
well-formed table changes nothing. -/
theorem upsertAll_idem
    (hkey_set : ∀ r c, rkey (setR r c) = ckey c)
    (hid_set : ∀ r c, rid (setR r c) = rid r)
    (hset_set : ∀ r c, setR (setR r c) c = setR r c)
    (hnew_fix : ∀ i c, setR (newR i c) c = newR i c)
    (hnew_id : ∀ i c, rid (newR i c) = i)
    (cs : List C) (t : Table R) (hwf : Table.WF rid t)
    (hnd : (cs.map ckey).Nodup) :
    upsertAll rkey ckey rid setR newR cs
        (upsertAll rkey ckey rid setR newR cs t) =
      upsertAll rkey ckey rid setR newR cs t :=
  upsertAll_of_written rkey ckey rid setR newR
    cs _ (upsertAll_WF rkey ckey rid setR newR hid_set hnew_id cs t hwf)
    (written_upsertAll_self rkey ckey rid setR newR hkey_set hid_set hset_set
      hnew_fix hnew_id cs t hwf hnd)

end GenericUpsert

/-- A persisted `reliability_scores` row. -/
structure ScoreRow where
  id : Nat
  station_id : Nat
  hour : Nat
  day_type : DayType
  reliability_percentage : ℚ
  avg_available_bikes : ℚ
  sample_size : Nat
  data_period_start : Int
  data_period_end : Int
deriving DecidableEq, Repr

/-- Natural key of a reliability payload: `(station_id, hour, day_type)`,
the three equality filters of the existence check in
`_upsert_reliability_score`. -/
def scoreKey (c : ReliabilityScoreCreate) : Nat × Nat × DayType :=
  (c.station_id, c.hour, c.day_type)

/-- Natural key of a persisted reliability row. -/
def rowScoreKey (r : ScoreRow) : Nat × Nat × DayType :=
  (r.station_id, r.hour, r.day_type)

/-- Updating a found row writes the full payload (`score_dict`) while the row
keeps its id. -/
def setScore (r : ScoreRow) (c : ReliabilityScoreCreate) : ScoreRow :=
  { id := r.id
    station_id := c.station_id
    hour := c.hour
    day_type := c.day_type
    reliability_percentage := c.reliability_percentage
    avg_available_bikes := c.avg_available_bikes
    sample_size := c.sample_size
    data_period_start := c.data_period_start
    data_period_end := c.data_period_end }

/-- Inserting a new row assigns the store's fresh id to the payload. -/
def newScoreRow (i : Nat) (c : ReliabilityScoreCreate) : ScoreRow :=
  { id := i
    station_id := c.station_id
    hour := c.hour
    day_type := c.day_type
    reliability_percentage := c.reliability_percentage
    avg_available_bikes := c.avg_available_bikes
    sample_size := c.sample_size
    data_period_start := c.data_period_start
    data_period_end := c.data_period_end }

/-- The method `_upsert_reliability_score` (`station_repository.py` lines 587-635). -/
def upsertReliabilityScore (t : Table ScoreRow) (c : ReliabilityScoreCreate) :
    Table ScoreRow :=
  upsertRow rowScoreKey scoreKey (fun r => r.id) setScore newScoreRow t c

/-- The sequence of reliability upserts performed by
`_calculate_station_reliability`'s output loop. -/
def upsertScores (cs : List ReliabilityScoreCreate) (t : Table ScoreRow) :
    Table ScoreRow :=
  cs.foldl upsertReliabilityScore t

/-- A persisted `hourly_availability_averages` row. -/
structure AvgRow where
  id : Nat
  station_id : Nat
  hour : Nat
  day_type : DayType
  avg_bikes_available : ℚ
  total_snapshots : Nat
deriving DecidableEq, Repr

/-- Natural key of an hourly-average payload, as checked by
`_upsert_hourly_average`. -/
def avgKey (c : HourlyAvailabilityAverageCreate) : Nat × Nat × DayType :=
  (c.station_id, c.hour, c.day_type)

/-- Natural key of a persisted hourly-average row. -/
def rowAvgKey (r : AvgRow) : Nat × Nat × DayType :=
  (r.station_id, r.hour, r.day_type)

/-- Updating a found hourly-average row writes the full payload. -/
def setAvg (r : AvgRow) (c : HourlyAvailabilityAverageCreate) : AvgRow :=
  { id := r.id
    station_id := c.station_id
    hour := c.hour
    day_type := c.day_type
    avg_bikes_available := c.avg_bikes_available
    total_snapshots := c.total_snapshots }

/-- Inserting a new hourly-average row assigns the store's fresh id. -/
def newAvgRow (i : Nat) (c : HourlyAvailabilityAverageCreate) : AvgRow :=
  { id := i
    station_id := c.station_id
    hour := c.hour
    day_type := c.day_type
    avg_bikes_available := c.avg_bikes_available
    total_snapshots := c.total_snapshots }

/-- The method `_upsert_hourly_average` (`station_repository.py` lines 868-902). -/
def upsertHourlyAverage (t : Table AvgRow) (c : HourlyAvailabilityAverageCreate) :
    Table AvgRow :=
  upsertRow rowAvgKey avgKey (fun r => r.id) setAvg newAvgRow t c

/-- The sequence of hourly-average upserts performed by the calculation
loops. -/
def upsertAvgs (cs : List HourlyAvailabilityAverageCreate) (t : Table AvgRow) :
    Table AvgRow :=
  cs.foldl upsertHourlyAverage t

theorem map_key_filterMap_sublist {α β γ : Type} (l : List α)
    (f : α → Option β) (key : β → γ) (g : α → γ)
    (hf : ∀ a b, f a = some b → key b = g a) :
    ((l.filterMap f).map key).Sublist (l.map g) := by
  induction l with
  | nil => simp
  | cons a l ih =>
      cases hfa : f a with
      | none =>
          simp only [List.filterMap_cons, hfa, List.map_cons]
          exact ih.cons (g a)
      | some b =>
          simp only [List.filterMap_cons, hfa, List.map_cons, hf a b hfa]
          exact ih.cons₂ (g a)

theorem calcStationReliability_keys_nodup (sid : Nat) (ps pe : Int)
    (snaps : List Snapshot) :
    ((calcStationReliability sid ps pe snaps).map scoreKey).Nodup := by
  have hinj : Function.Injective
      (fun k : GroupKey => ((sid, k.1, k.2) : Nat × Nat × DayType)) := by
    intro x y h
    simp only [Prod.mk.injEq] at h
    exact Prod.ext h.2.1 h.2.2
  refine List.Sublist.nodup ?_ ((groupKeys_nodup snaps).map hinj)
  apply map_key_filterMap_sublist
  intro a b h
  unfold calcStationReliability at h
  by_cases hc : (groupedData snaps a).total_snapshots < 5
  · simp [hc] at h
  · simp only [hc, if_false] at h
    cases h
    rfl

theorem calculate_hourly_averages_keys_nodup (rpcOk : Bool) (sid : Nat)
    (snaps : List Snapshot) :
    ((calculate_hourly_averages rpcOk sid snaps).map avgKey).Nodup := by
  have hinj : Function.Injective
      (fun k : GroupKey => ((sid, k.1, k.2) : Nat × Nat × DayType)) := by
    intro x y h
    simp only [Prod.mk.injEq] at h
    exact Prod.ext h.2.1 h.2.2
  have hnodup := (groupKeys_nodup snaps).map hinj
  cases rpcOk with
  | false =>
      show ((calcHourlyAveragesFallback sid snaps).map avgKey).Nodup
      rw [calcHourlyAveragesFallback]
      by_cases hs : snaps.isEmpty
      · simp [hs]
      · rw [if_neg hs]
        refine List.Sublist.nodup ?_ hnodup
        apply map_key_filterMap_sublist
        intro a b h
        by_cases hc : (avgGroupedData snaps a).total_snapshots < 5
        · simp [hc] at h
        · simp only [hc, if_false] at h
          cases h
          rfl
  | true =>
      rw [calculate_hourly_averages]
      simp only [if_pos rfl]
      by_cases hrows : (rpcCalculateHourlyAverages snaps).isEmpty
      · simp [hrows]
      · rw [if_neg hrows, rpcCalculateHourlyAverages, List.filterMap_map]
        refine List.Sublist.nodup ?_ hnodup
        apply map_key_filterMap_sublist
        intro a b h
        simp only [Function.comp_apply] at h
        by_cases hc : countKey snaps a < 5
        · simp [hc] at h
        · simp only [hc, if_false] at h
          cases h
          rfl

/-- Claim C6: Recomputing an aggregate (reliability scores over a fixed window,
or hourly averages by either the store-side fast path or the client-side
fallback) a second time over an unchanged snapshot set and applying its
upserts again leaves the persisted table exactly as after the first run: all
values identical and no second row created for any `(station, hour,
day-type)` key. -/
theorem aggregate_recompute_idempotent (rpcOk : Bool) (sid : Nat) (ps pe : Int)
    (snaps : List Snapshot) (ts : Table ScoreRow) (ta : Table AvgRow)
    (hts : Table.WF (fun r => r.id) ts) (hta : Table.WF (fun r => r.id) ta) :
    upsertScores (calcStationReliability sid ps pe snaps)
        (upsertScores (calcStationReliability sid ps pe snaps) ts) =
      upsertScores (calcStationReliability sid ps pe snaps) ts ∧
    upsertAvgs (calculate_hourly_averages rpcOk sid snaps)
        (upsertAvgs (calculate_hourly_averages rpcOk sid snaps) ta) =
      upsertAvgs (calculate_hourly_averages rpcOk sid snaps) ta := by
  constructor
  · exact upsertAll_idem rowScoreKey scoreKey (fun r => r.id) setScore newScoreRow
      (fun r c => rfl) (fun r c => rfl) (fun r c => rfl) (fun i c => rfl)
      (fun i c => rfl) (calcStationReliability sid ps pe snaps) ts hts
      (calcStationReliability_keys_nodup sid ps pe snaps)
  · exact upsertAll_idem rowAvgKey avgKey (fun r => r.id) setAvg newAvgRow
      (fun r c => rfl) (fun r c => rfl) (fun r c => rfl) (fun i c => rfl)
      (fun i c => rfl) (calculate_hourly_averages rpcOk sid snaps) ta hta
      (calculate_hourly_averages_keys_nodup rpcOk sid snaps)

/-- Witness for C6: a concrete recomputation (five Monday-8am snapshots, so a
row is actually written) over initially empty, well-formed tables. -/
theorem aggregate_recompute_idempotent_witness :
    Table.WF (fun r : ScoreRow => r.id) ⟨[], 0⟩ ∧
    Table.WF (fun r : AvgRow => r.id) ⟨[], 0⟩ ∧
    (upsertScores (calcStationReliability 1 0 30
          [⟨8, 1, 0⟩, ⟨8, 1, 2⟩, ⟨8, 1, 5⟩, ⟨8, 1, 0⟩, ⟨8, 1, 3⟩])
        (upsertScores (calcStationReliability 1 0 30
          [⟨8, 1, 0⟩, ⟨8, 1, 2⟩, ⟨8, 1, 5⟩, ⟨8, 1, 0⟩, ⟨8, 1, 3⟩]) ⟨[], 0⟩) =
      upsertScores (calcStationReliability 1 0 30
          [⟨8, 1, 0⟩, ⟨8, 1, 2⟩, ⟨8, 1, 5⟩, ⟨8, 1, 0⟩, ⟨8, 1, 3⟩]) ⟨[], 0⟩ ∧
    upsertAvgs (calculate_hourly_averages false 1
          [⟨8, 1, 0⟩, ⟨8, 1, 2⟩, ⟨8, 1, 5⟩, ⟨8, 1, 0⟩, ⟨8, 1, 3⟩])
        (upsertAvgs (calculate_hourly_averages false 1
          [⟨8, 1, 0⟩, ⟨8, 1, 2⟩, ⟨8, 1, 5⟩, ⟨8, 1, 0⟩, ⟨8, 1, 3⟩]) ⟨[], 0⟩) =
      upsertAvgs (calculate_hourly_averages false 1
          [⟨8, 1, 0⟩, ⟨8, 1, 2⟩, ⟨8, 1, 5⟩, ⟨8, 1, 0⟩, ⟨8, 1, 3⟩]) ⟨[], 0⟩) :=
  ⟨⟨by decide, by decide⟩, ⟨by decide, by decide⟩,
    aggregate_recompute_idempotent false 1 0 30
      [⟨8, 1, 0⟩, ⟨8, 1, 2⟩, ⟨8, 1, 5⟩, ⟨8, 1, 0⟩, ⟨8, 1, 3⟩] ⟨[], 0⟩ ⟨[], 0⟩
      ⟨by decide, by decide⟩ ⟨by decide, by decide⟩⟩

/-! ## Stations, live statuses and snapshot ingestion
(`mevo_data_seeder.py`) -/

/-- A persisted `bike_stations` row (`BikeStation` in
`app/schemas/station.py`; timestamps omitted).  Coordinates are modelled as
rationals. -/
structure BikeStation where
  id : Nat
  external_station_id : String
  name : String
  latitude : ℚ
  longitude : ℚ
  total_docks : Nat
  is_active : Bool
deriving DecidableEq, Repr

/-- A live status record from the feed (`station_status` GBFS document). -/
structure StationStatus where
  station_id : String
  num_bikes_available : Nat
  num_docks_available : Nat
  is_renting : Bool
  is_returning : Bool
deriving DecidableEq, Repr

/-- The projections of the shared cycle timestamp the ingestor reads:
`isoweekday()` (1=Monday..7=Sunday), `hour` and `minute`. -/
structure Timestamp where
  isoweekday : Nat
  hour : Nat
  minute : Nat
deriving DecidableEq, Repr

/-- An `AvailabilitySnapshotCreate` record (`app/schemas/station.py`). -/
structure AvailabilitySnapshotCreate where
  station_id : Nat
  available_bikes : Nat
  available_docks : Nat
  is_renting : Bool
  is_returning : Bool
  timestamp : Timestamp
  day_of_week : Nat
  hour : Nat
  minute_slot : Nat
deriving DecidableEq, Repr

/-- The `station_lookup` dictionary of `_process_station_statuses_batch`,
keyed by external station id.  A Python dict comprehension keeps the last
entry for a duplicated key, hence the first match in the reversed list. -/
def stationLookup (stations : List BikeStation) (eid : String) :
    Option BikeStation :=
  stations.reverse.find? (fun s => s.external_station_id = eid)

/-- The method `_process_station_statuses_batch` (`mevo_data_seeder.py` lines 343-412):
skip statuses whose station is unknown; for each matched status derive
`day_of_week`, `hour` and the 15-minute slot from the single shared cycle
timestamp and accumulate a snapshot record.  Returns the accumulated batch
`snapshots_to_create`. -/
def processStationStatusesBatch (stations : List BikeStation)
    (statuses : List StationStatus) (ts : Timestamp) :
    List AvailabilitySnapshotCreate :=
  statuses.filterMap (fun status =>
    match stationLookup stations status.station_id with
    | none => none
    | some station => some
        { station_id := station.id
          available_bikes := status.num_bikes_available
          available_docks := status.num_docks_available
          is_renting := status.is_renting
          is_returning := status.is_returning
          timestamp := ts
          day_of_week := ts.isoweekday
          hour := ts.hour
          minute_slot := ts.minute / 15 * 15 })

/-- Claim C7: Every live status whose station is known produces exactly one
snapshot, and each snapshot's day-of-week, hour and 15-minute slot (floor of
the minute to a multiple of 15) are derived from the single shared cycle
timestamp; in particular, three statuses for known stations at a Monday 08:05
timestamp yield three snapshots with `hour = 8`, `day_of_week = 1`,
`minute_slot = 0`. -/
theorem snapshots_derive_from_shared_timestamp (stations : List BikeStation)
    (statuses : List StationStatus) (ts : Timestamp) :
    (processStationStatusesBatch stations statuses ts).map
        (fun s => (s.day_of_week, s.hour, s.minute_slot)) =
      List.replicate
        (statuses.countP
          (fun st => (stationLookup stations st.station_id).isSome))
        (ts.isoweekday, ts.hour, ts.minute / 15 * 15) ∧
    (processStationStatusesBatch
        [⟨1, "5811", "GDA A", 0, 0, 10, true⟩,
         ⟨2, "5812", "GDA B", 0, 0, 10, true⟩,
         ⟨3, "5813", "GDA C", 0, 0, 10, true⟩]
        [⟨"5811", 0, 10, true, true⟩,
         ⟨"5812", 2, 8, true, true⟩,
         ⟨"5813", 5, 5, true, true⟩]
        ⟨1, 8, 5⟩).map (fun s => (s.day_of_week, s.hour, s.minute_slot)) =
      [(1, 8, 0), (1, 8, 0), (1, 8, 0)] := by
  constructor
  · induction statuses with
    | nil => simp [processStationStatusesBatch]
    | cons st l ih =>
        cases h : stationLookup stations st.station_id with
        | none =>
            simp only [processStationStatusesBatch, List.filterMap_cons, h,
              List.countP_cons] at ih ⊢
            simpa [h] using ih
        | some station =>
            simp only [processStationStatusesBatch, List.filterMap_cons, h,
              List.countP_cons, List.map_cons] at ih ⊢
            simp only [h, Option.isSome_some, if_true]
            rw [List.replicate_succ, ← ih]
  · decide

/-! ## The status-sync pipeline run (`sync_station_status`) -/

/-- Outcome of the feed call `mevo_client.get_station_status()`: a list of
live statuses, or a `MevoApiError`. -/
inductive FetchResult where
  | ok (statuses : List StationStatus)
  | apiError (msg : String)
deriving DecidableEq, Repr

/-- The outcomes of the external effects one `sync_station_status` run
performs, in the order the code reaches them: the feed fetch, the
`get_all_stations` listing, the snapshot batch insert, and the sync-log
write. -/
structure SyncWorld where
  fetch : FetchResult
  getStations : Except String (List BikeStation)
  insertBatch : Except String Unit
  logWrite : Except String Unit
deriving Repr

/-- The observable result of one `sync_station_status` run: the `stats`
dictionary fields, the computed sync status, how many sync-log writes were
attempted, and whether an exception escaped the pipeline boundary. -/
structure SyncRunStats where
  stations_processed : Nat
  snapshots_created : Nat
  errors : List String
  sync_status : Option SyncStatus
  sync_log_attempts : Nat
  raised : Bool
deriving DecidableEq, Repr

/-- The run-status rule of `sync_station_status` (`mevo_data_seeder.py` lines
163-165): `SUCCESS if not errors else (PARTIAL if snapshots_created > 0 else
FAILED)`. -/
def statusSyncStatus (errors : List String) (snapshots_created : Nat) :
    SyncStatus :=
  if errors.isEmpty then SyncStatus.success
  else if 0 < snapshots_created then SyncStatus.mixed
  else SyncStatus.failed

/-- The run-status rule of `seed_initial_stations` (`mevo_data_seeder.py`
lines 91-93): `SUCCESS if not errors else (PARTIAL if stations_created > 0
else FAILED)`.  The `stations_updated` count is not consulted. -/
def seedSyncStatus (errors : List String)
    (stations_created stations_updated : Nat) : SyncStatus :=
  if errors.isEmpty then SyncStatus.success
  else if 0 < stations_created then SyncStatus.mixed
  else SyncStatus.failed

/-- The run-status rule as claim C3 states it, over an abstract count of
successfully processed items (created or updated stations, or created
snapshots): zero errors gives success, errors with at least one success give
partial, errors with no success give failed. -/
def claimRunStatus (errors : List String) (successes : Nat) : SyncStatus :=
  if errors.isEmpty then SyncStatus.success
  else if 0 < successes then SyncStatus.mixed
  else SyncStatus.failed

/-- The method `sync_station_status` (`mevo_data_seeder.py` lines 128-198) as a function
of the run's external-effect outcomes.  A `MevoApiError` from the feed call
and an unexpected error from the station listing are caught by the two
`except` clauses, which append the error and return the stats — without
reaching the sync-log step.  On the main path one sync-log write is
attempted; its own failure is only logged (both branches of the final match
return the same stats). -/
def sync_station_status (w : SyncWorld) (ts : Timestamp) : SyncRunStats :=
  match w.fetch with
  | FetchResult.apiError e =>
      { stations_processed := 0
        snapshots_created := 0
        errors := ["MEVO API error during status sync: " ++ e]
        sync_status := none
        sync_log_attempts := 0
        raised := false }
  | FetchResult.ok statuses =>
      match w.getStations with
      | Except.error e =>
          { stations_processed := 0
            snapshots_created := 0
            errors := ["Unexpected error during status sync: " ++ e]
            sync_status := none
            sync_log_attempts := 0
            raised := false }
      | Except.ok stations =>
          let snaps := processStationStatusesBatch stations statuses ts
          let insertResult :=
            if snaps.isEmpty then (0, ([] : List String))
            else
              match w.insertBatch with
              | Except.ok _ => (snaps.length, ([] : List String))
              | Except.error e => (0, ["Error creating snapshots batch: " ++ e])
          let stats : SyncRunStats :=
            { stations_processed := snaps.length
              snapshots_created := insertResult.1
              errors := insertResult.2
              sync_status := some (statusSyncStatus insertResult.2 insertResult.1)
              sync_log_attempts := 1
              raised := false }
          match w.logWrite with
          | Except.ok _ => stats
          | Except.error _ => stats

/-- Counterexample to claim C2: A run that fails with a feed error before
producing any snapshot attempts no sync-log write at all — not exactly
one. -/
theorem sync_log_skipped_on_feed_error :
    ¬ ((sync_station_status
        ⟨FetchResult.apiError "boom", Except.ok [], Except.ok (),
          Except.ok ()⟩ ⟨1, 8, 5⟩).sync_log_attempts = 1) := by
  decide

/-- Claim C2, amended: A status-sync run attempts exactly one sync-log write
precisely when it reaches the log step, i.e. when the feed fetch and the
station listing succeed; a run failing earlier (in particular with a feed
error before producing any snapshot) attempts none.  No exception ever
escapes the pipeline boundary, and the outcome is independent of whether the
attempted log write itself fails — that failure is only logged, never
re-raised. -/
theorem sync_log_attempted_iff_log_step_reached (w : SyncWorld) (ts : Timestamp) :
    ((sync_station_status w ts).sync_log_attempts =
      match w.fetch, w.getStations with
      | FetchResult.ok _, Except.ok _ => 1
      | _, _ => 0) ∧
    (sync_station_status w ts).raised = false ∧
    (∀ lw lw' : Except String Unit,
      sync_station_status ⟨w.fetch, w.getStations, w.insertBatch, lw⟩ ts =
        sync_station_status ⟨w.fetch, w.getStations, w.insertBatch, lw'⟩ ts) := by
  obtain ⟨fetch, getStations, insertBatch, logWrite⟩ := w
  refine ⟨?_, ?_, ?_⟩
  · cases fetch with
    | apiError e => rfl
    | ok statuses =>
        cases getStations with
        | error e => rfl
        | ok stations =>
            cases logWrite with
            | ok u => rfl
            | error e => rfl
  · cases fetch with
    | apiError e => rfl
    | ok statuses =>
        cases getStations with
        | error e => rfl
        | ok stations =>
            cases logWrite with
            | ok u => rfl
            | error e => rfl
  · intro lw lw'
    cases fetch with
    | apiError e => rfl
    | ok statuses =>
        cases getStations with
        | error e => rfl
        | ok stations =>
            cases lw with
            | ok u => cases lw' with
                | ok u' => rfl
                | error e' => rfl
            | error e => cases lw' with
                | ok u' => rfl
                | error e' => rfl

/-- Counterexample to claim C3: A seeding run with one error, no created station
and one updated station records `failed`, while the claim's rule (updated
stations count as successes) yields `partial`. -/
theorem seed_status_ignores_updated_stations :
    seedSyncStatus ["e"] 0 1 ≠ claimRunStatus ["e"] (0 + 1) := by
  decide

/-- Claim C3, amended: The recorded run status is a function of the error list
and a success count, by the rule: zero errors gives success, errors with at
least one success give partial, else failed — but for the seeding pipeline
the success count is the number of *created* stations only (updated stations
are not consulted), and for the status-sync pipeline it is the number of
created snapshots; the status-sync pipeline records exactly that status
whenever it reaches the log step and none when it fails earlier. -/
theorem run_status_derivation (errors : List String)
    (created updated snapshots : Nat) (w : SyncWorld) (ts : Timestamp) :
    seedSyncStatus errors created updated = claimRunStatus errors created ∧
    statusSyncStatus errors snapshots = claimRunStatus errors snapshots ∧
    ((sync_station_status w ts).sync_status =
      match w.fetch, w.getStations with
      | FetchResult.ok _, Except.ok _ =>
          some (statusSyncStatus (sync_station_status w ts).errors
            (sync_station_status w ts).snapshots_created)
      | _, _ => none) := by
  obtain ⟨fetch, getStations, insertBatch, logWrite⟩ := w
  refine ⟨rfl, rfl, ?_⟩
  cases fetch with
  | apiError e => rfl
  | ok statuses =>
      cases getStations with
      | error e => rfl
      | ok stations =>
          cases logWrite with
          | ok u => rfl
          | error e => rfl

/-! ## Station reconciliation (`_process_stations_batch`) -/

/-- A station record fetched from the feed's station directory
(`station_information`). -/
structure MevoStation where
  station_id : String
  name : String
  lat : ℚ
  lon : ℚ
  capacity : Nat
deriving DecidableEq, Repr

/-- A `BikeStationCreate` record (`app/schemas/station.py` lines 32-44).
The schema declares no `address` field, so the address keyword passed by the
seeder is dropped by the schema; the persisted field set is the one below. -/
structure BikeStationCreate where
  external_station_id : String
  name : String
  latitude : ℚ
  longitude : ℚ
  total_docks : Nat
  is_active : Bool
deriving DecidableEq, Repr

/-- A `BikeStationUpdate` record (`app/schemas/station.py` lines 47-53): the
optional mutable attribute fields; no external id, no address. -/
structure BikeStationUpdate where
  name : Option String
  latitude : Option ℚ
  longitude : Option ℚ
  total_docks : Option Nat
  is_active : Option Bool
deriving DecidableEq, Repr

/-- The persisted `bike_stations` table with its fresh-id counter. -/
structure StationStore where
  stations : List BikeStation
  nextId : Nat
deriving DecidableEq, Repr

/-- The method `get_station_by_external_id` (`station_repository.py` lines 109-129):
first row whose `external_station_id` matches. -/
def get_station_by_external_id (store : StationStore) (eid : String) :
    Option BikeStation :=
  store.stations.find? (fun s => s.external_station_id = eid)

/-- The `station_data` record built for every fetched record
(`mevo_data_seeder.py` lines 220-228): the feed's virtual-station `capacity`
maps to `total_docks`; the station is marked active. -/
def stationCreateOf (m : MevoStation) : BikeStationCreate :=
  { external_station_id := m.station_id
    name := m.name
    latitude := m.lat
    longitude := m.lon
    total_docks := m.capacity
    is_active := true }

/-- The `update_data` record built from `station_data` for an existing
station (`mevo_data_seeder.py` lines 257-264). -/
def stationUpdateOf (c : BikeStationCreate) : BikeStationUpdate :=
  { name := some c.name
    latitude := some c.latitude
    longitude := some c.longitude
    total_docks := some c.total_docks
    is_active := some c.is_active }

/-- Applying an update writes the non-`None` fields of the update onto the row;
the row id and the external id are untouched. -/
def applyUpdate (s : BikeStation) (u : BikeStationUpdate) : BikeStation :=
  { s with
    name := u.name.getD s.name
    latitude := u.latitude.getD s.latitude
    longitude := u.longitude.getD s.longitude
    total_docks := u.total_docks.getD s.total_docks
    is_active := u.is_active.getD s.is_active }

/-- The method `update_station` (`station_repository.py` lines 221-259): update the row
with the given internal id. -/
def update_station (store : StationStore) (i : Nat) (u : BikeStationUpdate) :
    StationStore :=
  { store with
    stations := store.stations.map (fun s => if s.id = i then applyUpdate s u else s) }

/-- The method `create_stations_batch` (`station_repository.py` lines 186-219): insert
all create records, each receiving a fresh internal id. -/
def create_stations_batch (store : StationStore) (cs : List BikeStationCreate) :
    StationStore :=
  cs.foldl
    (fun st c =>
      { stations := st.stations ++
          [{ id := st.nextId
             external_station_id := c.external_station_id
             name := c.name
             latitude := c.latitude
             longitude := c.longitude
             total_docks := c.total_docks
             is_active := c.is_active }]
        nextId := st.nextId + 1 })
    store

/-- The per-record decision of the reconciliation loop
(`mevo_data_seeder.py` lines 214-239): look up the persisted station by the
record's external id; absent means a create record is accumulated, present
means an update built from the same `station_data` is paired with the
existing row's internal id. -/
def reconcileDecision (store : StationStore) (m : MevoStation) :
    BikeStationCreate ⊕ (Nat × BikeStationUpdate) :=
  let station_data := stationCreateOf m
  match get_station_by_external_id store m.station_id with
  | some existing => Sum.inr (existing.id, stationUpdateOf station_data)
  | none => Sum.inl station_data

/-- The `new_stations` accumulator of `_process_stations_batch`. -/
def newStationsOf (store : StationStore) (mevo : List MevoStation) :
    List BikeStationCreate :=
  mevo.filterMap (fun m =>
    match reconcileDecision store m with
    | Sum.inl c => some c
    | Sum.inr _ => none)

/-- The `stations_to_update` accumulator of `_process_stations_batch`, as
`(internal id, update)` pairs. -/
def updatesOf (store : StationStore) (mevo : List MevoStation) :
    List (Nat × BikeStationUpdate) :=
  mevo.filterMap (fun m =>
    match reconcileDecision store m with
    | Sum.inl _ => none
    | Sum.inr p => some p)

/-- The method `_process_stations_batch` (`mevo_data_seeder.py` lines 200-283): decide
create/update per record against the original store, batch-create all new
stations in one call (skipped when there are none), then apply the updates
one at a time by internal id.  The second component records the batch-create
calls made. -/
def processStationsBatch (store : StationStore) (mevo : List MevoStation) :
    StationStore × List (List BikeStationCreate) :=
  let new_stations := newStationsOf store mevo
  let stations_to_update := updatesOf store mevo
  let createCalls := if new_stations.isEmpty then [] else [new_stations]
  let store1 :=
    if new_stations.isEmpty then store else create_stations_batch store new_stations
  let store2 := stations_to_update.foldl (fun st p => update_station st p.1 p.2) store1
  (store2, createCalls)

/-- Claim C4: For every fetched station record, reconciliation looks up the
persisted station by external id.  Absent: the create record (feed capacity
mapped to dock capacity) is accumulated and all such records form one single
batch-create call.  Present: an update carrying the same mutable field set as
the create record is paired with the existing row's internal id; applying it
touches only the row with that internal id, preserves the row's internal id
and external id, and changes exactly the mutable attribute fields to the
fetched values. -/
theorem reconcile_create_or_update (store : StationStore)
    (mevo : List MevoStation) (m : MevoStation) (hm : m ∈ mevo) :
    (get_station_by_external_id store m.station_id = none →
      reconcileDecision store m = Sum.inl (stationCreateOf m) ∧
      (stationCreateOf m).total_docks = m.capacity ∧
      stationCreateOf m ∈ newStationsOf store mevo ∧
      (processStationsBatch store mevo).2 = [newStationsOf store mevo]) ∧
    (∀ st0, get_station_by_external_id store m.station_id = some st0 →
      reconcileDecision store m =
        Sum.inr (st0.id, stationUpdateOf (stationCreateOf m)) ∧
      (st0.id, stationUpdateOf (stationCreateOf m)) ∈ updatesOf store mevo ∧
      stationUpdateOf (stationCreateOf m) =
        { name := some (stationCreateOf m).name
          latitude := some (stationCreateOf m).latitude
          longitude := some (stationCreateOf m).longitude
          total_docks := some (stationCreateOf m).total_docks
          is_active := some (stationCreateOf m).is_active }) ∧
    (∀ (store' : StationStore) (i : Nat) (u : BikeStationUpdate)
        (s : BikeStation), s ∈ store'.stations →
      (s.id ≠ i → s ∈ (update_station store' i u).stations) ∧
      (s.id = i → applyUpdate s u ∈ (update_station store' i u).stations)) ∧
    (∀ s : BikeStation,
      (applyUpdate s (stationUpdateOf (stationCreateOf m))).id = s.id ∧
      (applyUpdate s (stationUpdateOf (stationCreateOf m))).external_station_id =
        s.external_station_id ∧
      (applyUpdate s (stationUpdateOf (stationCreateOf m))).name = m.name ∧
      (applyUpdate s (stationUpdateOf (stationCreateOf m))).latitude = m.lat ∧
      (applyUpdate s (stationUpdateOf (stationCreateOf m))).longitude = m.lon ∧
      (applyUpdate s (stationUpdateOf (stationCreateOf m))).total_docks =
        m.capacity ∧
      (applyUpdate s (stationUpdateOf (stationCreateOf m))).is_active = true) := by
  refine ⟨?_, ?_, ?_, ?_⟩
  · intro h
    have hdec : reconcileDecision store m = Sum.inl (stationCreateOf m) := by
      simp [reconcileDecision, h]
    have hmem : stationCreateOf m ∈ newStationsOf store mevo :=
      List.mem_filterMap.mpr ⟨m, hm, by rw [hdec]⟩
    have hne : ¬ (newStationsOf store mevo).isEmpty := by
      intro hempty
      rw [List.isEmpty_iff] at hempty
      rw [hempty] at hmem
      exact List.not_mem_nil _ hmem
    refine ⟨hdec, rfl, hmem, ?_⟩
    show (if (newStationsOf store mevo).isEmpty then []
      else [newStationsOf store mevo]) = [newStationsOf store mevo]
    rw [if_neg hne]
  · intro st0 h
    have hdec : reconcileDecision store m =
        Sum.inr (st0.id, stationUpdateOf (stationCreateOf m)) := by
      simp [reconcileDecision, h]
    refine ⟨hdec, ?_, rfl⟩
    exact List.mem_filterMap.mpr ⟨m, hm, by rw [hdec]⟩
  · intro store' i u s hs
    constructor
    · intro hne
      have hmem := List.mem_map_of_mem
        (fun t : BikeStation => if t.id = i then applyUpdate t u else t) hs
      simp only [if_neg hne] at hmem
      simpa [update_station] using hmem
    · intro heq
      have hmem := List.mem_map_of_mem
        (fun t : BikeStation => if t.id = i then applyUpdate t u else t) hs
      simp only [if_pos heq] at hmem
      simpa [update_station] using hmem
  · intro s
    exact ⟨rfl, rfl, rfl, rfl, rfl, rfl, rfl⟩

/-- Witness for C4: the spec's Scenario C — a store holding external id
"5811" under internal id 7, reconciled against a fetched record with the same
external id and a changed name: the decision is an update paired with
internal id 7. -/
theorem reconcile_create_or_update_witness :
    (⟨"5811", "GDA New", 0, 0, 12⟩ : MevoStation) ∈
      ([⟨"5811", "GDA New", 0, 0, 12⟩] : List MevoStation) ∧
    get_station_by_external_id ⟨[⟨7, "5811", "GDA Old", 0, 0, 10, true⟩], 8⟩
        "5811" = some ⟨7, "5811", "GDA Old", 0, 0, 10, true⟩ ∧
    reconcileDecision ⟨[⟨7, "5811", "GDA Old", 0, 0, 10, true⟩], 8⟩
        ⟨"5811", "GDA New", 0, 0, 12⟩ =
      Sum.inr (7, stationUpdateOf (stationCreateOf ⟨"5811", "GDA New", 0, 0, 12⟩)) :=
  ⟨List.mem_singleton.mpr rfl, rfl,
    ((reconcile_create_or_update ⟨[⟨7, "5811", "GDA Old", 0, 0, 10, true⟩], 8⟩
        [⟨"5811", "GDA New", 0, 0, 12⟩] ⟨"5811", "GDA New", 0, 0, 12⟩
        (List.mem_singleton.mpr rfl)).2.1
      ⟨7, "5811", "GDA Old", 0, 0, 10, true⟩ rfl).1⟩

/-! ## Job scheduler exclusivity and the manual trigger path
(`background_scheduler.py`) -/

/-- The scheduler's state for the collection job id: the number of in-flight
executions of `station_status_collection`. -/
structure SchedulerState where
  runningCollection : Nat
deriving DecidableEq, Repr

/-- Modelled from the spec: the effect of a *scheduled* interval firing for
the collection job.  The job is registered in `BackgroundScheduler.start`
(lines 56-63) with `max_instances=1`; the scheduler host that interprets that
registration is an external collaborator whose behaviour the spec fixes: a
trigger firing while the same job id is running is suppressed — skipped, not
queued. -/
def scheduledFire (s : SchedulerState) : SchedulerState :=
  if 1 ≤ s.runningCollection then s
  else { runningCollection := s.runningCollection + 1 }

/-- The effect of a *manual* trigger of the collection job: `trigger_job`
(lines 143-189) awaits `self._collect_station_status()` directly, with no
check of whether a run of the same job id is active. -/
def manualTriggerFire (s : SchedulerState) : SchedulerState :=
  { runningCollection := s.runningCollection + 1 }

/-- Counterexample to claim C9: From a state with one active run of the collection
job, a manual trigger starts a second concurrent run of the same job id. -/
theorem manual_trigger_starts_concurrent_run :
    ¬ ((manualTriggerFire ⟨1⟩).runningCollection ≤ 1) := by
  decide

/-- Claim C9, amended: While a prior run of the collection job is still
active, a *scheduled* firing for the same job id is suppressed and not queued
(the state is left unchanged); the *manual* trigger path is not guarded and
always starts one more concurrent execution. -/
theorem scheduled_fire_suppressed_while_running (s : SchedulerState)
    (h : 1 ≤ s.runningCollection) :
    scheduledFire s = s ∧
    (manualTriggerFire s).runningCollection = s.runningCollection + 1 :=
  ⟨by simp [scheduledFire, h], rfl⟩

/-- Witness for C9 (amended): one active run; the scheduled firing changes
nothing. -/
theorem scheduled_fire_suppressed_while_running_witness :
    1 ≤ (⟨1⟩ : SchedulerState).runningCollection ∧
    scheduledFire ⟨1⟩ = ⟨1⟩ ∧
    (manualTriggerFire ⟨1⟩).runningCollection = (⟨1⟩ : SchedulerState).runningCollection + 1 :=
  ⟨by decide, scheduled_fire_suppressed_while_running ⟨1⟩ (by decide)⟩

/-- The result dictionary returned by a manual trigger. -/
structure TriggerResult where
  success : Bool
  job_id : String
  error : Option String
deriving DecidableEq, Repr

/-- Outcome of awaiting a job function: normal return or a raised
exception. -/
inductive JobOutcome where
  | ok
  | exn (msg : String)
deriving DecidableEq, Repr

/-- The job ids registered by `BackgroundScheduler.start` (lines 56-76):
the collection job and the weekly maintenance job. -/
def registeredJobs : List String :=
  ["station_status_collection", "data_maintenance"]

/-- The method `trigger_job` (`background_scheduler.py` lines 143-189): raise when the
scheduler is not running or the job id is not registered; otherwise dispatch
inside a `try` whose `except` catches every exception — including one raised
by the job function itself and the `Unknown job ID` raise — and turns it into
a `success=False` result carrying the error text. -/
def trigger_job (is_running : Bool) (jobs : List String)
    (run : String → JobOutcome) (job_id : String) :
    Except String TriggerResult :=
  if ¬ is_running then Except.error "Scheduler is not running"
  else if ¬ (job_id ∈ jobs) then
    Except.error ("Job with ID " ++ job_id ++ " not found")
  else
    let body :=
      if job_id = "station_status_collection" then run job_id
      else if job_id = "reliability_calculation" then run job_id
      else if job_id = "data_maintenance" then run job_id
      else JobOutcome.exn ("Unknown job ID: " ++ job_id)
    match body with
    | JobOutcome.ok => Except.ok { success := true, job_id := job_id, error := none }
    | JobOutcome.exn m =>
        Except.ok { success := false, job_id := job_id, error := some m }

/-- Claim C10: For every registered job id, a manual trigger never propagates
an exception raised by the job function: it returns a result with
`success = false` carrying the error text; and `trigger_job` raises exactly
when the scheduler is not running or the job id is unknown. -/
theorem trigger_job_catches_job_errors (run : String → JobOutcome)
    (id : String) (h : id ∈ registeredJobs) :
    (∀ m, run id = JobOutcome.exn m →
      trigger_job true registeredJobs run id =
        Except.ok ⟨false, id, some m⟩) ∧
    (run id = JobOutcome.ok →
      trigger_job true registeredJobs run id = Except.ok ⟨true, id, none⟩) ∧
    (∃ e, trigger_job false registeredJobs run id = Except.error e) ∧
    (∀ id', ¬ id' ∈ registeredJobs →
      ∃ e, trigger_job true registeredJobs run id' = Except.error e) := by
  have hcases : id = "station_status_collection" ∨ id = "data_maintenance" := by
    rcases List.mem_cons.mp h with h1 | h1
    · exact Or.inl h1
    · rcases List.mem_cons.mp h1 with h2 | h2
      · exact Or.inr h2
      · exact absurd h2 (List.not_mem_nil id)
  refine ⟨?_, ?_, ⟨"Scheduler is not running", rfl⟩, ?_⟩
  · intro m hm
    rcases hcases with rfl | rfl
    · simp [trigger_job, hm, registeredJobs]
    · simp [trigger_job, hm, registeredJobs]
  · intro hok
    rcases hcases with rfl | rfl
    · simp [trigger_job, hok, registeredJobs]
    · simp [trigger_job, hok, registeredJobs]
  · intro id' hid
    refine ⟨"Job with ID " ++ id' ++ " not found", ?_⟩
    rw [trigger_job, if_neg (by simp), if_pos hid]

/-- Witness for C10: the collection job, whose run raises; the manual trigger
returns a failed result carrying the error text. -/
theorem trigger_job_catches_job_errors_witness :
    ("station_status_collection" ∈ registeredJobs) ∧
    trigger_job true registeredJobs (fun _ => JobOutcome.exn "boom")
        "station_status_collection" =
      Except.ok ⟨false, "station_status_collection", some "boom"⟩ :=
  ⟨by decide,
    (trigger_job_catches_job_errors (fun _ => JobOutcome.exn "boom")
        "station_status_collection" (by decide)).1 "boom" rfl⟩

end BikeSharing
